import Mathlib

/-!
Shallow embedding of the e-commerce analytics ETL pipeline
(`src/etl_pipeline.py`, class `EcommerceETL`) for verification of its
natural-language specification.

Modelling conventions:
* Raw-file parsing mechanics are out of scope (spec section 1): a
  `RawRecord` carries the fields exactly as they sit in memory after
  `extract` (`pd.read_csv` with declared dtypes): `InvoiceNo`, `StockCode`,
  `Country` as text, `Quantity` as integer, `UnitPrice` as decimal
  (modelled as `Rat`), `Description` and `CustomerID` as possibly-absent
  text (pandas `NaN` for a missing field is `Option.none` here), and
  `InvoiceDate` as the timestamp that `pd.to_datetime` yields in
  `transform` (a structured value; the string-to-timestamp parse itself is
  out-of-scope parsing mechanics).
* Machine floats are modelled as exact rationals (`Rat`).
* The warehouse is an explicit `Database` value; SQL `INSERT ... ON
  CONFLICT` statements become Lean functions on it, and storage-generated
  surrogate keys come from explicit counters.
-/

section
set_option allowUnsafeReducibility true
attribute [semireducible] Rat.mul Rat.add Rat.sub Rat.inv Rat.ofScientific
end

/-- Python `str.strip()` on the underlying character list (the data is
ASCII, so ASCII whitespace suffices). -/
def pyStrip (s : String) : String :=
  ⟨((s.data.dropWhile Char.isWhitespace).reverse.dropWhile Char.isWhitespace).reverse⟩

/-- Python `str.upper()` (ASCII data). -/
def pyUpper (s : String) : String :=
  ⟨s.data.map Char.toUpper⟩

/-- Value of a non-empty run of decimal digits; `none` on empty input or a
non-digit. -/
def digitsVal? (l : List Char) : Option Nat :=
  if l.isEmpty then none
  else
    l.foldl
      (fun acc c =>
        match acc with
        | none => none
        | some n => if c.isDigit then some (n * 10 + (c.toNat - '0'.toNat)) else none)
      (some 0)

/-- Python `int(s)` on the strings that can occur in a `CustomerID` cell:
an optional sign followed by digits; `none` models the raised
`ValueError`. -/
def strToInt? (s : String) : Option Int :=
  match s.data with
  | '-' :: rest => (digitsVal? rest).map (fun n => -(n : Int))
  | l => (digitsVal? l).map (fun n => (n : Int))

/-- `str.startswith('C', na=False)`: the cancellation-marker test of
`transform` (case-sensitive single-letter prefix). -/
def startsWithMarker (s : String) : Bool :=
  match s.data with
  | c :: _ => c = 'C'
  | [] => false

/-- Calendar date (the value of `InvoiceDate.dt.date`), the natural key of
`dim_dates`. -/
structure DateOnly where
  year : Nat
  month : Nat
  day : Nat
deriving DecidableEq, Repr

/-- A parsed timestamp as produced by `pd.to_datetime` on `InvoiceDate`. -/
structure Timestamp where
  year : Nat
  month : Nat
  day : Nat
  hour : Nat
deriving DecidableEq, Repr

/-- The calendar-date part of a timestamp (`.dt.date`). -/
def Timestamp.dateOnly (t : Timestamp) : DateOnly :=
  ⟨t.year, t.month, t.day⟩

/-- Gregorian leap-year test. -/
def isLeap (y : Nat) : Bool :=
  (y % 4 == 0 && y % 100 != 0) || (y % 400 == 0)

/-- Days in the months strictly before month `m` of a common year. -/
def daysBeforeMonthCommon (m : Nat) : Nat :=
  [0, 31, 59, 90, 120, 151, 181, 212, 243, 273, 304, 334].getD (m - 1) 0

/-- Ordinal day of the year (1-based). -/
def dayOfYear (y m d : Nat) : Nat :=
  daysBeforeMonthCommon m + (if isLeap y && decide (2 < m) then 1 else 0) + d

/-- Day of week with Monday = 0 .. Sunday = 6 (pandas `dt.dayofweek`),
computed by Sakamoto's method. -/
def dayOfWeekPandas (y m d : Nat) : Nat :=
  let t := [0, 3, 2, 5, 0, 3, 5, 1, 4, 6, 2, 4]
  let y' := if m < 3 then y - 1 else y
  let w := (y' + y' / 4 - y' / 100 + y' / 400 + t.getD (m - 1) 0 + d) % 7
  (w + 6) % 7

/-- ISO weekday, Monday = 1 .. Sunday = 7. -/
def weekdayISO (y m d : Nat) : Nat :=
  dayOfWeekPandas y m d + 1

/-- Number of ISO weeks in year `y` (52 or 53). -/
def isoWeeksInYear (y : Nat) : Nat :=
  let jan1 := weekdayISO y 1 1
  52 + (if jan1 == 4 || (isLeap y && jan1 == 3) then 1 else 0)

/-- ISO-8601 week number (pandas `dt.isocalendar().week`). -/
def isoWeek (y m d : Nat) : Nat :=
  let w := (dayOfYear y m d + 10 - weekdayISO y m d) / 7
  if w == 0 then isoWeeksInYear (y - 1)
  else if isoWeeksInYear y < w then 1
  else w

/-- English month name (`strftime` with the full-month directive). -/
def monthName (m : Nat) : String :=
  match m with
  | 1 => "January" | 2 => "February" | 3 => "March" | 4 => "April"
  | 5 => "May" | 6 => "June" | 7 => "July" | 8 => "August"
  | 9 => "September" | 10 => "October" | 11 => "November" | 12 => "December"
  | _ => ""

/-- English day name from the pandas weekday number (Monday = 0). -/
def dayName (dow : Nat) : String :=
  match dow with
  | 0 => "Monday" | 1 => "Tuesday" | 2 => "Wednesday" | 3 => "Thursday"
  | 4 => "Friday" | 5 => "Saturday" | 6 => "Sunday"
  | _ => ""

/-- Calendar quarter of a month (pandas `dt.quarter`). -/
def quarterOfMonth (m : Nat) : Nat :=
  (m + 2) / 3

/-- One row of the in-memory dataset right after `extract` (`df_raw`): the
dtypes declared in `extract` determine the field types; missing
`Description`/`CustomerID` cells are `none`. -/
structure RawRecord where
  invoiceNo : String
  stockCode : String
  description : Option String
  quantity : Int
  invoiceDate : Timestamp
  unitPrice : Rat
  customerID : Option String
  country : String
deriving DecidableEq, Repr

/-- A row after step 3 of `transform` (type conversions): `CustomerID` has
been cast to an integer and `Description` is known present. -/
structure TypedRecord where
  invoiceNo : String
  stockCode : String
  description : String
  quantity : Int
  invoiceDate : Timestamp
  unitPrice : Rat
  customerID : Int
  country : String
deriving DecidableEq, Repr

/-- One row of `df_clean`: the surviving fields plus the derived columns
added in steps 5-6 of `transform`. -/
structure CleanRecord where
  invoiceNo : String
  stockCode : String
  description : String
  quantity : Int
  invoiceDate : Timestamp
  unitPrice : Rat
  customerID : Int
  country : String
  totalAmount : Rat
  year : Nat
  month : Nat
  day : Nat
  dayOfWeek : Nat
  hour : Nat
deriving DecidableEq, Repr

/-- Worker for `dropDuplicates`: keep an element unless it was already
seen earlier in the list. -/
def dropDupsAux {α : Type} [DecidableEq α] (seen : List α) : List α → List α
  | [] => []
  | x :: xs =>
    if x ∈ seen then dropDupsAux seen xs
    else x :: dropDupsAux (x :: seen) xs

/-- `df.drop_duplicates()` (also pandas `unique()` on a column): equality
on the whole element, first occurrence kept. -/
def dropDuplicates {α : Type} [DecidableEq α] (l : List α) : List α :=
  dropDupsAux [] l

/-- Step 3 of `transform` on one row: `CustomerID.astype(int)` (the
timestamp and the numeric columns are already typed after `extract`, so
`pd.to_datetime` and `pd.to_numeric` are the identity here).  `none` means
the cast raised, which makes the whole `transform` call fail. -/
def convertRow (r : RawRecord) : Option TypedRecord :=
  match r.customerID, r.description with
  | some cid, some desc =>
    match strToInt? cid with
    | some n =>
      some ⟨r.invoiceNo, r.stockCode, desc, r.quantity, r.invoiceDate,
            r.unitPrice, n, r.country⟩
    | none => none
  | _, _ => none

/-- Apply `convertRow` to every row; any single failure fails the batch
(the pandas `astype` raises for the whole column). -/
def convertAll : List RawRecord → Option (List TypedRecord)
  | [] => some []
  | r :: rs =>
    match convertRow r, convertAll rs with
    | some t, some ts => some (t :: ts)
    | _, _ => none

/-- Step 4 of `transform`: the data-quality filters, in source order —
not a cancelled invoice, positive quantity and price, outlier ceiling. -/
def notCancelled (t : TypedRecord) : Bool :=
  !(startsWithMarker t.invoiceNo)

/-- Positivity filter of step 4 (`Quantity > 0` and `UnitPrice > 0`). -/
def positiveQtyPrice (t : TypedRecord) : Bool :=
  decide (0 < t.quantity) && decide (0 < t.unitPrice)

/-- Outlier filter of step 4 (`Quantity <= 10000`). -/
def withinOutlierCeiling (t : TypedRecord) : Bool :=
  decide (t.quantity ≤ 10000)

/-- Steps 5-6 of `transform`: derived columns (`TotalAmount`, calendar
parts) and text cleaning (`Description` trimmed and upper-cased,
`Country` trimmed). -/
def enrich (t : TypedRecord) : CleanRecord :=
  { invoiceNo := t.invoiceNo
    stockCode := t.stockCode
    description := pyUpper (pyStrip t.description)
    quantity := t.quantity
    invoiceDate := t.invoiceDate
    unitPrice := t.unitPrice
    customerID := t.customerID
    country := pyStrip t.country
    totalAmount := (t.quantity : Rat) * t.unitPrice
    year := t.invoiceDate.year
    month := t.invoiceDate.month
    day := t.invoiceDate.day
    dayOfWeek := dayOfWeekPandas t.invoiceDate.year t.invoiceDate.month t.invoiceDate.day
    hour := t.invoiceDate.hour }

/-- `EcommerceETL.transform`: dedup, null filters, type conversions,
quality filters, derived columns and text cleaning, in the source's
order.  `none` models the `except` branch (a raised conversion error,
returning `False` with a "Transformation error"). -/
def transform (raw : List RawRecord) : Option (List CleanRecord) :=
  match convertAll (((dropDuplicates raw).filter (fun r => r.customerID.isSome)).filter
      (fun r => r.description.isSome)) with
  | none => none
  | some typed =>
    some ((((typed.filter notCancelled).filter positiveQtyPrice).filter
      withinOutlierCeiling).map enrich)


/-- One row of `dim_dates`.  `date_id` is the storage-generated surrogate
key. -/
structure DimDateRow where
  date_id : Nat
  full_date : DateOnly
  year : Nat
  quarter : Nat
  month : Nat
  month_name : String
  week : Nat
  day_of_month : Nat
  day_of_week : Nat
  day_name : String
  is_weekend : Bool
deriving DecidableEq, Repr

/-- One row of `dim_customers` (natural key `customer_id`; the
`updated_at` wall-clock column is outside the model). -/
structure DimCustomerRow where
  customer_id : Int
  country : String
  first_purchase_date : Timestamp
  last_purchase_date : Timestamp
  total_orders : Nat
  lifetime_value : Rat
deriving DecidableEq, Repr

/-- One row of `dim_products`.  `product_id` is the storage-generated
surrogate key; `stock_code` is the unique natural key. -/
structure DimProductRow where
  product_id : Nat
  stock_code : String
  description : String
  unit_price : Rat
deriving DecidableEq, Repr

/-- One row of `fact_transactions` as inserted by `load_facts` (the
`total_amount` column is derived by storage as quantity times unit
price). -/
structure FactRow where
  invoice_no : String
  customer_id : Int
  product_id : Nat
  date_id : Nat
  invoice_date : Timestamp
  quantity : Int
  unit_price : Rat
deriving DecidableEq, Repr

/-- The warehouse: committed table contents plus the counters that stand
for storage-generated surrogate keys. -/
structure Database where
  dimDates : List DimDateRow
  dimCustomers : List DimCustomerRow
  dimProducts : List DimProductRow
  facts : List FactRow
  nextDateId : Nat
  nextProductId : Nat
deriving DecidableEq, Repr

/-- An empty warehouse. -/
def emptyDb : Database :=
  ⟨[], [], [], [], 0, 0⟩

/-- The `dim_dates` row built by `load_dimensions` for one distinct
calendar date (the `dates_df` columns). -/
def mkDateRow (id : Nat) (d : DateOnly) : DimDateRow :=
  { date_id := id
    full_date := d
    year := d.year
    quarter := quarterOfMonth d.month
    month := d.month
    month_name := monthName d.month
    week := isoWeek d.year d.month d.day
    day_of_month := d.day
    day_of_week := dayOfWeekPandas d.year d.month d.day
    day_name := dayName (dayOfWeekPandas d.year d.month d.day)
    is_weekend := dayOfWeekPandas d.year d.month d.day == 5
                    || dayOfWeekPandas d.year d.month d.day == 6 }

/-- `INSERT INTO dim_dates ... ON CONFLICT (full_date) DO NOTHING`. -/
def upsertDate (db : Database) (d : DateOnly) : Database :=
  if db.dimDates.any (fun row => row.full_date == d) then db
  else
    { db with
      dimDates := db.dimDates ++ [mkDateRow db.nextDateId d]
      nextDateId := db.nextDateId + 1 }

/-- The distinct calendar dates of the clean batch
(`df_clean['InvoiceDate'].dt.date.unique()`), first appearance order. -/
def distinctDates (batch : List CleanRecord) : List DateOnly :=
  dropDuplicates (batch.map (fun r => r.invoiceDate.dateOnly))

/-- The date part of `load_dimensions`: one upsert per distinct date. -/
def loadDates (db : Database) (ds : List DateOnly) : Database :=
  ds.foldl upsertDate db

/-- Lexicographic order on timestamps (pandas datetime comparison). -/
def Timestamp.le (a b : Timestamp) : Bool :=
  if a.year ≠ b.year then a.year < b.year
  else if a.month ≠ b.month then a.month < b.month
  else if a.day ≠ b.day then a.day < b.day
  else a.hour ≤ b.hour

/-- Minimum of a list of timestamps (`'min'` aggregation); `none` on an
empty list. -/
def minTimestamp : List Timestamp → Option Timestamp
  | [] => none
  | t :: ts => some (ts.foldl (fun m x => if Timestamp.le x m then x else m) t)

/-- Maximum of a list of timestamps (`'max'` aggregation); `none` on an
empty list. -/
def maxTimestamp : List Timestamp → Option Timestamp
  | [] => none
  | t :: ts => some (ts.foldl (fun m x => if Timestamp.le m x then x else m) t)

/-- The distinct customer ids of the clean batch (the `groupby` keys; the
source sorts group keys, which permutes rows but changes no per-key
content and no count, so first-appearance order is used here). -/
def distinctCustomers (batch : List CleanRecord) : List Int :=
  dropDuplicates (batch.map (fun r => r.customerID))

/-- The `customers_df` aggregate row for one customer id: country
(`'first'`), purchase window (`'min'`/`'max'`), distinct order count
(`'nunique'` of `InvoiceNo`), lifetime value (`'sum'` of
`TotalAmount`). -/
structure CustomerAgg where
  country : String
  first_purchase_date : Timestamp
  last_purchase_date : Timestamp
  total_orders : Nat
  lifetime_value : Rat
deriving DecidableEq, Repr

/-- Compute the `customers_df` aggregates for one customer id. -/
def customerAgg (batch : List CleanRecord) (cid : Int) : CustomerAgg :=
  let rows := batch.filter (fun r => r.customerID == cid)
  { country := ((rows.map (fun r => r.country)).head?).getD ""
    first_purchase_date := (minTimestamp (rows.map (fun r => r.invoiceDate))).getD ⟨0, 0, 0, 0⟩
    last_purchase_date := (maxTimestamp (rows.map (fun r => r.invoiceDate))).getD ⟨0, 0, 0, 0⟩
    total_orders := (dropDuplicates (rows.map (fun r => r.invoiceNo))).length
    lifetime_value := (rows.map (fun r => r.totalAmount)).sum }

/-- `INSERT INTO dim_customers ... ON CONFLICT (customer_id) DO UPDATE`:
on conflict only `last_purchase_date`, `total_orders` and
`lifetime_value` are overwritten (`country` and `first_purchase_date`
keep their stored values). -/
def upsertCustomer (db : Database) (cid : Int) (a : CustomerAgg) : Database :=
  if db.dimCustomers.any (fun r => r.customer_id == cid) then
    { db with
      dimCustomers := db.dimCustomers.map (fun r =>
        if r.customer_id == cid then
          { r with
            last_purchase_date := a.last_purchase_date
            total_orders := a.total_orders
            lifetime_value := a.lifetime_value }
        else r) }
  else
    { db with
      dimCustomers := db.dimCustomers ++
        [⟨cid, a.country, a.first_purchase_date, a.last_purchase_date,
          a.total_orders, a.lifetime_value⟩] }

/-- The customer part of `load_dimensions`: one upsert per distinct
customer id of the batch. -/
def loadCustomers (db : Database) (batch : List CleanRecord) : Database :=
  (distinctCustomers batch).foldl (fun acc cid => upsertCustomer acc cid (customerAgg batch cid)) db

/-- The distinct stock codes of the clean batch (product `groupby`
keys). -/
def distinctCodes (batch : List CleanRecord) : List String :=
  dropDuplicates (batch.map (fun r => r.stockCode))

/-- `products_df` aggregate: `Description` with `'first'`. -/
def firstDesc (batch : List CleanRecord) (code : String) : String :=
  (((batch.filter (fun r => r.stockCode == code)).map (fun r => r.description)).head?).getD ""

/-- `products_df` aggregate: `UnitPrice` with `'mean'`. -/
def meanPrice (batch : List CleanRecord) (code : String) : Rat :=
  let rows := batch.filter (fun r => r.stockCode == code)
  (rows.map (fun r => r.unitPrice)).sum / (rows.length : Rat)

/-- `INSERT INTO dim_products ... ON CONFLICT (stock_code) DO UPDATE`:
on conflict `description` and `unit_price` are overwritten (the surrogate
`product_id` is kept). -/
def upsertProduct (db : Database) (code desc : String) (price : Rat) : Database :=
  if db.dimProducts.any (fun r => r.stock_code == code) then
    { db with
      dimProducts := db.dimProducts.map (fun r =>
        if r.stock_code == code then { r with description := desc, unit_price := price }
        else r) }
  else
    { db with
      dimProducts := db.dimProducts ++
        [⟨db.nextProductId, code, desc, price⟩]
      nextProductId := db.nextProductId + 1 }

/-- The product part of `load_dimensions`: one upsert per distinct stock
code of the batch. -/
def loadProducts (db : Database) (batch : List CleanRecord) : Database :=
  (distinctCodes batch).foldl
    (fun acc code => upsertProduct acc code (firstDesc batch code) (meanPrice batch code)) db

/-- Result of a successful `load_dimensions` call: the committed
warehouse plus the per-type `loaded` statistics, which the source sets to
`len(dates_df)`, `len(customers_df)` and `len(products_df)` — the number
of distinct keys in the batch, not the number of rows newly inserted. -/
structure DimLoadResult where
  db : Database
  datesLoaded : Nat
  customersLoaded : Nat
  productsLoaded : Nat
deriving DecidableEq, Repr

/-- `EcommerceETL.load_dimensions` (success path): dates, then customers,
then products, each committed in turn. -/
def load_dimensions (db : Database) (batch : List CleanRecord) : DimLoadResult :=
  let db1 := loadDates db (distinctDates batch)
  let db2 := loadCustomers db1 batch
  let db3 := loadProducts db2 batch
  { db := db3
    datesLoaded := (distinctDates batch).length
    customersLoaded := (distinctCustomers batch).length
    productsLoaded := (distinctCodes batch).length }

/-- `SELECT customer_id FROM dim_customers WHERE customer_id = %s`. -/
def lookupCustomer (db : Database) (cid : Int) : Option Int :=
  (db.dimCustomers.find? (fun r => r.customer_id == cid)).map (fun r => r.customer_id)

/-- `SELECT product_id FROM dim_products WHERE stock_code = %s`. -/
def lookupProduct (db : Database) (code : String) : Option Nat :=
  (db.dimProducts.find? (fun r => r.stock_code == code)).map (fun r => r.product_id)

/-- `SELECT date_id FROM dim_dates WHERE full_date = %s`. -/
def lookupDate (db : Database) (d : DateOnly) : Option Nat :=
  (db.dimDates.find? (fun r => r.full_date == d)).map (fun r => r.date_id)

/-- One iteration of the per-record loop of `load_facts`: a transaction
tuple is built only when all three foreign-key lookups succeed; otherwise
the record is skipped silently. -/
def resolveOne (db : Database) (r : CleanRecord) : Option FactRow :=
  match lookupCustomer db r.customerID, lookupProduct db r.stockCode,
      lookupDate db r.invoiceDate.dateOnly with
  | some cid, some pid, some did =>
    some ⟨r.invoiceNo, cid, pid, did, r.invoiceDate, r.quantity, r.unitPrice⟩
  | _, _, _ => none

/-- The `transactions` list accumulated by the loop of `load_facts`. -/
def resolveFacts (db : Database) (clean : List CleanRecord) : List FactRow :=
  clean.filterMap (resolveOne db)

/-- All three foreign-key lookups of `load_facts` succeed for a record. -/
def allLookupsOk (db : Database) (r : CleanRecord) : Bool :=
  (lookupCustomer db r.customerID).isSome && (lookupProduct db r.stockCode).isSome
    && (lookupDate db r.invoiceDate.dateOnly).isSome

/-- Structural worker for `chunkPages`; the fuel only bounds the
recursion depth and is always at least the list length at the call
site. -/
def chunkPagesFuel : Nat → List FactRow → List (List FactRow)
  | _, [] => []
  | 0, _ :: _ => []
  | fuel + 1, x :: xs => (x :: xs).take 1000 :: chunkPagesFuel fuel ((x :: xs).drop 1000)

/-- Split a list into the pages `execute_batch` sends
(`page_size = 1000`). -/
def chunkPages (l : List FactRow) : List (List FactRow) :=
  chunkPagesFuel l.length l

/-- Send the pages one after another inside the single open transaction,
accumulating the staged (not yet committed) rows; `failAt = some i`
injects a storage failure while page `i` is being sent, which raises and
leaves the transaction to be rolled back (`none`). -/
def sendPages (i : Nat) (pages : List (List FactRow)) (failAt : Option Nat) :
    Option (List FactRow) :=
  match pages with
  | [] => some []
  | p :: ps =>
    if failAt == some i then none
    else
      match sendPages (i + 1) ps failAt with
      | none => none
      | some rest => some (p ++ rest)

/-- `EcommerceETL.load_facts`: resolve foreign keys per record, batch the
resolved tuples, send them inside one transaction and commit once after
all pages; on a failure the `except` branch rolls the whole transaction
back, leaving the warehouse as it was before the call.  Returns the
success flag, the committed warehouse, and `transactions_loaded` (only
written on success). -/
def load_facts (db : Database) (clean : List CleanRecord) (failAt : Option Nat) :
    Bool × Database × Nat :=
  match sendPages 0 (chunkPages (resolveFacts db clean)) failAt with
  | none => (false, db, 0)
  | some staged =>
    (true, { db with facts := db.facts ++ staged }, (resolveFacts db clean).length)

/-- The result mapping computed by `EcommerceETL.validate` on reachable
storage. -/
structure ValidationResults where
  transaction_count : Nat
  customer_count : Nat
  product_count : Nat
  negative_amounts : Nat
  total_revenue : Rat
deriving DecidableEq, Repr

/-- `EcommerceETL.validate`: read-only quality checks.  When storage is
unreachable (`storageOk = false`) the `except` branch catches the raised
error and returns the empty dict (`none` here); it neither re-raises nor
records anything in the run statistics. -/
def validate (storageOk : Bool) (db : Database) : Option ValidationResults :=
  if storageOk then
    some
      { transaction_count := db.facts.length
        customer_count := db.dimCustomers.length
        product_count := db.dimProducts.length
        negative_amounts :=
          (db.facts.filter (fun f => decide ((f.quantity : Rat) * f.unit_price < 0))).length
        total_revenue := (db.facts.map (fun f => (f.quantity : Rat) * f.unit_price)).sum }
  else none

/-- The seven pipeline stages sequenced by `EcommerceETL.run`. -/
inductive Stage where
  | connect
  | extractStage
  | transformStage
  | loadDims
  | loadFacts
  | refresh
  | validateStage
deriving DecidableEq, Repr

/-- Success or failure of each stage, abstracting the external causes
(unreachable storage, unreadable file, raised conversion error, ...). -/
structure StageOutcomes where
  connectOk : Bool
  extractOk : Bool
  transformOk : Bool
  loadDimsOk : Bool
  loadFactsOk : Bool
  refreshOk : Bool
  validateOk : Bool
deriving DecidableEq, Repr

/-- Outcome of `EcommerceETL.run`: the boolean result, the
`stats['errors']` list (each stage's `except` branch appends its message;
`refresh_aggregates` and `validate` append nothing), and the stages that
were actually entered, in order. -/
structure RunResult where
  success : Bool
  errors : List String
  stagesRun : List Stage
deriving DecidableEq, Repr

/-- `EcommerceETL.run`: each stage runs only if every earlier stage
succeeded; the first five failures record an error message and return
`False`; a `refresh_aggregates` failure returns `False` without recording
anything; a `validate` failure yields the empty dict and the run still
returns `True`. -/
def run (o : StageOutcomes) : RunResult :=
  if !o.connectOk then
    ⟨false, ["Connection error"], [.connect]⟩
  else if !o.extractOk then
    ⟨false, ["Extraction error"], [.connect, .extractStage]⟩
  else if !o.transformOk then
    ⟨false, ["Transformation error"], [.connect, .extractStage, .transformStage]⟩
  else if !o.loadDimsOk then
    ⟨false, ["Dimension load error"], [.connect, .extractStage, .transformStage, .loadDims]⟩
  else if !o.loadFactsOk then
    ⟨false, ["Fact load error"],
      [.connect, .extractStage, .transformStage, .loadDims, .loadFacts]⟩
  else if !o.refreshOk then
    ⟨false, [], [.connect, .extractStage, .transformStage, .loadDims, .loadFacts, .refresh]⟩
  else
    ⟨true, [],
      [.connect, .extractStage, .transformStage, .loadDims, .loadFacts, .refresh,
       .validateStage]⟩

/-! Concrete sample data used by the scenario theorems: the four-row
end-to-end batch of the spec (normal row, exact duplicate, missing
customer id, cancelled invoice), a whitespace-only description row, a
two-description product batch, and a 1001-row batch that spans two
`execute_batch` pages. -/

/-- Scenario row (a): quantity 3, unit price 2.50, customer 101. -/
def rawA : RawRecord :=
  ⟨"1001", "P1", some " widget ", 3, ⟨2011, 1, 4, 10⟩, 5/2, some "101", "UK"⟩

/-- Scenario row (c): the customer id cell is empty (pandas `NaN`). -/
def rawC : RawRecord :=
  ⟨"1002", "P1", some "widget", 2, ⟨2011, 1, 4, 11⟩, 5/2, none, "UK"⟩

/-- Scenario row (d): invoice id `C1001`, a cancelled order. -/
def rawD : RawRecord :=
  ⟨"C1001", "P1", some "widget", 1, ⟨2011, 1, 4, 12⟩, 5/2, some "102", "UK"⟩

/-- The clean record that row (a) becomes. -/
def cleanA : CleanRecord :=
  { invoiceNo := "1001", stockCode := "P1", description := "WIDGET",
    quantity := 3, invoiceDate := ⟨2011, 1, 4, 10⟩, unitPrice := 5/2,
    customerID := 101, country := "UK", totalAmount := 15/2,
    year := 2011, month := 1, day := 4, dayOfWeek := 1, hour := 10 }

/-- A row whose description cell holds only whitespace: it is not null,
so `dropna` keeps it, and `strip()` turns it into the empty string. -/
def rawWS : RawRecord :=
  ⟨"1003", "P2", some "   ", 1, ⟨2011, 1, 5, 9⟩, 1, some "103", "UK"⟩

/-- First clean record of the two-description product batch: stock code
`P9`, description `A`, unit price 1. -/
def cleanP9A : CleanRecord :=
  { invoiceNo := "2001", stockCode := "P9", description := "A",
    quantity := 1, invoiceDate := ⟨2011, 2, 1, 9⟩, unitPrice := 1,
    customerID := 201, country := "UK", totalAmount := 1,
    year := 2011, month := 2, day := 1, dayOfWeek := 1, hour := 9 }

/-- Second (and latest) clean record for stock code `P9`: description
`B`, unit price 2. -/
def cleanP9B : CleanRecord :=
  { invoiceNo := "2002", stockCode := "P9", description := "B",
    quantity := 1, invoiceDate := ⟨2011, 2, 1, 10⟩, unitPrice := 2,
    customerID := 201, country := "UK", totalAmount := 2,
    year := 2011, month := 2, day := 1, dayOfWeek := 1, hour := 10 }

/-- Warehouse after loading the dimensions of the one-record batch, used
as the starting state of the fact-load scenarios. -/
def dbAfterDims : Database :=
  (load_dimensions emptyDb [cleanA]).db

/-- A clean batch of 1001 copies of the resolvable record: `load_facts`
splits its tuples into one full page of 1000 and a second page of 1. -/
def batch1001 : List CleanRecord :=
  List.replicate 1001 cleanA

/-- The fact tuple that `cleanA` resolves to against `dbAfterDims`. -/
def factA : FactRow :=
  ⟨"1001", 101, 0, 0, ⟨2011, 1, 4, 10⟩, 3, 5/2⟩

/-- The conjunction of the step-4 quality filters of `transform`. -/
def typedPasses (t : TypedRecord) : Bool :=
  notCancelled t && positiveQtyPrice t && withinOutlierCeiling t

/-- A raw row passes every cleaning filter of `transform`: customer id
present, description present, and — once converted — not cancelled,
positive quantity and price, and within the outlier ceiling.  (A present
but non-integer customer id makes the whole `transform` call raise
rather than drop the row, so under a successful `transform` the
conversion in this predicate always succeeds for surviving rows.) -/
def rawPasses (r : RawRecord) : Bool :=
  r.customerID.isSome && r.description.isSome &&
    (match convertRow r with
     | some t => typedPasses t
     | none => false)

/-- The stored `dim_products` row for a stock code. -/
def findProduct (db : Database) (code : String) : Option DimProductRow :=
  db.dimProducts.find? (fun r => r.stock_code == code)

/-- How many `dim_dates` rows carry a given calendar date. -/
def countDate (db : Database) (d : DateOnly) : Nat :=
  db.dimDates.countP (fun r => r.full_date == d)

/-! Lemmas about `dropDupsAux` / `dropDuplicates`. -/

theorem dropDupsAux_subset {α : Type} [DecidableEq α] (seen : List α) (l : List α) :
    ∀ y ∈ dropDupsAux seen l, y ∈ l := by
  induction l generalizing seen with
  | nil => intro y hy; simp [dropDupsAux] at hy
  | cons x xs ih =>
    intro y hy
    by_cases hx : x ∈ seen
    · simp only [dropDupsAux, if_pos hx] at hy
      exact List.mem_cons_of_mem x (ih seen y hy)
    · simp only [dropDupsAux, if_neg hx, List.mem_cons] at hy
      rcases hy with rfl | hy
      · exact List.mem_cons_self y xs
      · exact List.mem_cons_of_mem x (ih (x :: seen) y hy)

theorem dropDupsAux_length_le {α : Type} [DecidableEq α] (seen : List α) (l : List α) :
    (dropDupsAux seen l).length ≤ l.length := by
  induction l generalizing seen with
  | nil => simp [dropDupsAux]
  | cons x xs ih =>
    by_cases hx : x ∈ seen
    · simp only [dropDupsAux, if_pos hx, List.length_cons]
      exact Nat.le_succ_of_le (ih seen)
    · simp only [dropDupsAux, if_neg hx, List.length_cons]
      exact Nat.succ_le_succ (ih (x :: seen))

theorem dropDupsAux_length_eq_iff {α : Type} [DecidableEq α] (seen : List α) (l : List α) :
    (dropDupsAux seen l).length = l.length ↔ (∀ x ∈ l, x ∉ seen) ∧ l.Nodup := by
  induction l generalizing seen with
  | nil => simp [dropDupsAux]
  | cons x xs ih =>
    by_cases hx : x ∈ seen
    · simp only [dropDupsAux, if_pos hx, List.length_cons]
      constructor
      · intro h
        have := dropDupsAux_length_le seen xs
        omega
      · rintro ⟨hall, -⟩
        exact absurd hx (hall x (List.mem_cons_self x xs))
    · simp only [dropDupsAux, if_neg hx, List.length_cons, Nat.succ_inj,
        List.nodup_cons, List.mem_cons]
      rw [ih (x :: seen)]
      constructor
      · rintro ⟨hall, hnd⟩
        refine ⟨?_, ?_, hnd⟩
        · intro y hy
          rcases hy with rfl | hy
          · exact hx
          · intro hcon
            exact (hall y hy) (List.mem_cons_of_mem x hcon)
        · intro hmem
          exact (hall x hmem) (List.mem_cons_self x seen)
      · rintro ⟨hall, hnx, hnd⟩
        refine ⟨?_, hnd⟩
        intro y hy
        simp only [List.mem_cons, not_or]
        exact ⟨fun h => hnx (h ▸ hy), hall y (Or.inr hy)⟩

theorem dropDupsAux_eq_self {α : Type} [DecidableEq α] (seen : List α) (l : List α)
    (h1 : ∀ x ∈ l, x ∉ seen) (h2 : l.Nodup) : dropDupsAux seen l = l := by
  induction l generalizing seen with
  | nil => simp [dropDupsAux]
  | cons x xs ih =>
    have hx : x ∉ seen := h1 x (List.mem_cons_self x xs)
    rw [List.nodup_cons] at h2
    simp only [dropDupsAux, if_neg hx]
    congr 1
    refine ih (x :: seen) ?_ h2.2
    intro y hy
    simp only [List.mem_cons, not_or]
    exact ⟨fun h => h2.1 (h ▸ hy), h1 y (List.mem_cons_of_mem x hy)⟩

theorem mem_dropDupsAux {α : Type} [DecidableEq α] (seen : List α) (l : List α)
    (y : α) (hy : y ∈ l) : y ∈ seen ∨ y ∈ dropDupsAux seen l := by
  induction l generalizing seen with
  | nil => cases hy
  | cons x xs ih =>
    by_cases hx : x ∈ seen
    · simp only [dropDupsAux, if_pos hx]
      rcases List.mem_cons.mp hy with rfl | hy'
      · exact Or.inl hx
      · exact ih seen hy'
    · simp only [dropDupsAux, if_neg hx]
      rcases List.mem_cons.mp hy with rfl | hy'
      · exact Or.inr (List.mem_cons_self y _)
      · rcases ih (x :: seen) hy' with hmem | hmem
        · rcases List.mem_cons.mp hmem with rfl | hmem'
          · exact Or.inr (List.mem_cons_self y _)
          · exact Or.inl hmem'
        · exact Or.inr (List.mem_cons_of_mem x hmem)

theorem mem_not_seen_of_mem_dropDupsAux {α : Type} [DecidableEq α] (seen : List α)
    (l : List α) (y : α) (hy : y ∈ dropDupsAux seen l) : y ∉ seen := by
  induction l generalizing seen with
  | nil => simp [dropDupsAux] at hy
  | cons x xs ih =>
    by_cases hx : x ∈ seen
    · simp only [dropDupsAux, if_pos hx] at hy
      exact ih seen hy
    · simp only [dropDupsAux, if_neg hx, List.mem_cons] at hy
      rcases hy with rfl | hy
      · exact hx
      · have := ih (x :: seen) hy
        simp only [List.mem_cons, not_or] at this
        exact this.2

theorem nodup_dropDupsAux {α : Type} [DecidableEq α] (seen : List α) (l : List α) :
    (dropDupsAux seen l).Nodup := by
  induction l generalizing seen with
  | nil => simp [dropDupsAux]
  | cons x xs ih =>
    by_cases hx : x ∈ seen
    · simpa only [dropDupsAux, if_pos hx] using ih seen
    · simp only [dropDupsAux, if_neg hx, List.nodup_cons]
      refine ⟨?_, ih (x :: seen)⟩
      intro hmem
      have := mem_not_seen_of_mem_dropDupsAux (x :: seen) xs x hmem
      simp at this

theorem dropDuplicates_subset {α : Type} [DecidableEq α] (l : List α) :
    ∀ y ∈ dropDuplicates l, y ∈ l :=
  dropDupsAux_subset [] l

theorem dropDuplicates_length_le {α : Type} [DecidableEq α] (l : List α) :
    (dropDuplicates l).length ≤ l.length :=
  dropDupsAux_length_le [] l

theorem dropDuplicates_length_eq_iff {α : Type} [DecidableEq α] (l : List α) :
    (dropDuplicates l).length = l.length ↔ l.Nodup := by
  unfold dropDuplicates
  rw [dropDupsAux_length_eq_iff]
  simp

theorem dropDuplicates_eq_self {α : Type} [DecidableEq α] (l : List α)
    (h : l.Nodup) : dropDuplicates l = l :=
  dropDupsAux_eq_self [] l (by simp) h

theorem mem_dropDuplicates {α : Type} [DecidableEq α] (l : List α) (y : α)
    (hy : y ∈ l) : y ∈ dropDuplicates l := by
  rcases mem_dropDupsAux [] l y hy with h | h
  · cases h
  · exact h

theorem nodup_dropDuplicates {α : Type} [DecidableEq α] (l : List α) :
    (dropDuplicates l).Nodup :=
  nodup_dropDupsAux [] l

/-! Lemmas about `convertAll` and the shape of `transform`. -/

theorem convertAll_forall₂ (l : List RawRecord) (ts : List TypedRecord)
    (h : convertAll l = some ts) :
    List.Forall₂ (fun r t => convertRow r = some t) l ts := by
  induction l generalizing ts with
  | nil =>
    simp only [convertAll, Option.some.injEq] at h
    subst h; exact List.Forall₂.nil
  | cons r rs ih =>
    simp only [convertAll] at h
    cases hr : convertRow r with
    | none => rw [hr] at h; cases h
    | some t =>
      rw [hr] at h
      cases hrs : convertAll rs with
      | none => rw [hrs] at h; cases h
      | some ts' =>
        rw [hrs] at h
        simp only [Option.some.injEq] at h
        subst h
        exact List.Forall₂.cons hr (ih ts' hrs)

theorem forall₂_mem_right {α β : Type} {R : α → β → Prop} {l : List α} {ts : List β}
    (h : List.Forall₂ R l ts) {t : β} (ht : t ∈ ts) : ∃ r ∈ l, R r t := by
  induction h with
  | nil => cases ht
  | cons hr _ ih =>
    rcases List.mem_cons.mp ht with rfl | ht'
    · exact ⟨_, List.mem_cons_self _ _, hr⟩
    · rcases ih ht' with ⟨r, hrmem, hR⟩
      exact ⟨r, List.mem_cons_of_mem _ hrmem, hR⟩

theorem forall₂_mem_left {α β : Type} {R : α → β → Prop} {l : List α} {ts : List β}
    (h : List.Forall₂ R l ts) {r : α} (hr : r ∈ l) : ∃ t ∈ ts, R r t := by
  induction h with
  | nil => cases hr
  | cons hR _ ih =>
    rcases List.mem_cons.mp hr with rfl | hr'
    · exact ⟨_, List.mem_cons_self _ _, hR⟩
    · rcases ih hr' with ⟨t, htmem, hRt⟩
      exact ⟨t, List.mem_cons_of_mem _ htmem, hRt⟩

theorem transform_spec (raw : List RawRecord) (out : List CleanRecord)
    (h : transform raw = some out) :
    ∃ ty, convertAll (((dropDuplicates raw).filter (fun r => r.customerID.isSome)).filter
        (fun r => r.description.isSome)) = some ty ∧
      out = (((ty.filter notCancelled).filter positiveQtyPrice).filter
        withinOutlierCeiling).map enrich := by
  unfold transform at h
  cases hconv : convertAll (((dropDuplicates raw).filter (fun r => r.customerID.isSome)).filter
      (fun r => r.description.isSome)) with
  | none => rw [hconv] at h; cases h
  | some ty =>
    rw [hconv] at h
    simp only [Option.some.injEq] at h
    exact ⟨ty, rfl, h.symm⟩

theorem typedPasses_iff (t : TypedRecord) :
    typedPasses t = true ↔
      notCancelled t = true ∧ positiveQtyPrice t = true ∧ withinOutlierCeiling t = true := by
  simp [typedPasses, Bool.and_eq_true, and_assoc]

theorem rawPasses_elim (r : RawRecord) (h : rawPasses r = true) :
    r.customerID.isSome = true ∧ r.description.isSome = true ∧
      ∃ t, convertRow r = some t ∧ typedPasses t = true := by
  unfold rawPasses at h
  cases hcr : convertRow r with
  | none => rw [hcr] at h; simp at h
  | some t =>
    rw [hcr] at h
    simp only [Bool.and_eq_true] at h
    exact ⟨h.1.1, h.1.2, t, rfl, h.2⟩

theorem rawPasses_intro (r : RawRecord) (t : TypedRecord)
    (h1 : r.customerID.isSome = true) (h2 : r.description.isSome = true)
    (h3 : convertRow r = some t) (h4 : typedPasses t = true) :
    rawPasses r = true := by
  unfold rawPasses
  rw [h3, h1, h2]
  simpa using h4

theorem filter_length_eq_iff {α : Type} (p : α → Bool) (l : List α) :
    (l.filter p).length = l.length ↔ ∀ a ∈ l, p a = true := by
  constructor
  · intro h
    exact List.filter_eq_self.mp ((List.filter_sublist l).eq_of_length h)
  · intro h
    rw [List.filter_eq_self.mpr h]

/-- C6 (confirmed): after a successful `transform`, the clean row count is
at most the extracted row count (`rows_after_cleaning <= rows_extracted`),
with equality exactly when the input has no duplicate rows and no row
violates any cleaning filter; and every clean record is the cleaned image
of some input row — no rows are invented. -/
theorem C6_thm (raw : List RawRecord) (out : List CleanRecord)
    (h : transform raw = some out) :
    out.length ≤ raw.length ∧
    (out.length = raw.length ↔ raw.Nodup ∧ ∀ r ∈ raw, rawPasses r = true) ∧
    (∀ c ∈ out, ∃ r ∈ raw, ∃ t, convertRow r = some t ∧ c = enrich t) := by
  obtain ⟨ty, hconv, hout⟩ := transform_spec raw out h
  set d1 := dropDuplicates raw with hd1
  set d2 := d1.filter (fun r => r.customerID.isSome) with hd2
  set d3 := d2.filter (fun r => r.description.isSome) with hd3
  set d4 := ty.filter notCancelled with hd4
  set d5 := d4.filter positiveQtyPrice with hd5
  set d6 := d5.filter withinOutlierCeiling with hd6
  have hf2 := convertAll_forall₂ _ _ hconv
  have l1 : d1.length ≤ raw.length := dropDuplicates_length_le raw
  have l2 : d2.length ≤ d1.length := List.length_filter_le _ d1
  have l3 : d3.length ≤ d2.length := List.length_filter_le _ d2
  have lty : d3.length = ty.length := hf2.length_eq
  have l4 : d4.length ≤ ty.length := List.length_filter_le _ ty
  have l5 : d5.length ≤ d4.length := List.length_filter_le _ d4
  have l6 : d6.length ≤ d5.length := List.length_filter_le _ d5
  have lout : out.length = d6.length := by rw [hout]; exact List.length_map d6 enrich
  refine ⟨by omega, ⟨?_, ?_⟩, ?_⟩
  · intro heq
    have e1 : d1.length = raw.length := by omega
    have e2 : d2.length = d1.length := by omega
    have e3 : d3.length = d2.length := by omega
    have e4 : d4.length = ty.length := by omega
    have e5 : d5.length = d4.length := by omega
    have e6 : d6.length = d5.length := by omega
    have hnd : raw.Nodup := (dropDuplicates_length_eq_iff raw).mp e1
    have hp2 : ∀ r ∈ d1, r.customerID.isSome = true := (filter_length_eq_iff _ d1).mp e2
    have hp3 : ∀ r ∈ d2, r.description.isSome = true := (filter_length_eq_iff _ d2).mp e3
    have hp4 : ∀ t ∈ ty, notCancelled t = true := (filter_length_eq_iff _ ty).mp e4
    have hp5 : ∀ t ∈ d4, positiveQtyPrice t = true := (filter_length_eq_iff _ d4).mp e5
    have hp6 : ∀ t ∈ d5, withinOutlierCeiling t = true := (filter_length_eq_iff _ d5).mp e6
    refine ⟨hnd, ?_⟩
    intro r hr
    have hr1 : r ∈ d1 := mem_dropDuplicates raw r hr
    have hr2 : r ∈ d2 := List.mem_filter.mpr ⟨hr1, hp2 r hr1⟩
    have hr3 : r ∈ d3 := List.mem_filter.mpr ⟨hr2, hp3 r hr2⟩
    obtain ⟨t, htty, hcr⟩ := forall₂_mem_left hf2 hr3
    have ht4 : t ∈ d4 := List.mem_filter.mpr ⟨htty, hp4 t htty⟩
    have ht5 : t ∈ d5 := List.mem_filter.mpr ⟨ht4, hp5 t ht4⟩
    exact rawPasses_intro r t (hp2 r hr1) (hp3 r hr2) hcr
      ((typedPasses_iff t).mpr ⟨hp4 t htty, hp5 t ht4, hp6 t ht5⟩)
  · rintro ⟨hnd, hall⟩
    have e1 : d1 = raw := dropDuplicates_eq_self raw hnd
    have hmem1 : ∀ r ∈ d1, r ∈ raw := by intro r hr; rwa [e1] at hr
    have hp1 : ∀ r ∈ d1, r.customerID.isSome = true :=
      fun r hr => (rawPasses_elim r (hall r (hmem1 r hr))).1
    have e2 : d2 = d1 := List.filter_eq_self.mpr hp1
    have hmem2 : ∀ r ∈ d2, r ∈ raw := fun r hr => hmem1 r (List.mem_of_mem_filter hr)
    have hp2 : ∀ r ∈ d2, r.description.isSome = true :=
      fun r hr => (rawPasses_elim r (hall r (hmem2 r hr))).2.1
    have e3 : d3 = d2 := List.filter_eq_self.mpr hp2
    have htyp : ∀ t ∈ ty, typedPasses t = true := by
      intro t ht
      obtain ⟨r, hr3, hcr⟩ := forall₂_mem_right hf2 ht
      have hraw : r ∈ raw := hmem2 r (List.mem_of_mem_filter hr3)
      obtain ⟨-, -, t', hcr', hp⟩ := rawPasses_elim r (hall r hraw)
      have : t = t' := by
        have := hcr.symm.trans hcr'
        exact Option.some.injEq .. ▸ this
      rwa [this]
    have e4 : d4 = ty :=
      List.filter_eq_self.mpr (fun t ht => ((typedPasses_iff t).mp (htyp t ht)).1)
    have e5 : d5 = d4 :=
      List.filter_eq_self.mpr (fun t ht =>
        ((typedPasses_iff t).mp (htyp t (List.mem_of_mem_filter ht))).2.1)
    have e6 : d6 = d5 :=
      List.filter_eq_self.mpr (fun t ht =>
        ((typedPasses_iff t).mp
          (htyp t (List.mem_of_mem_filter (List.mem_of_mem_filter ht)))).2.2)
    calc out.length = d6.length := lout
      _ = d5.length := by rw [e6]
      _ = d4.length := by rw [e5]
      _ = ty.length := by rw [e4]
      _ = d3.length := lty.symm
      _ = d2.length := by rw [e3]
      _ = d1.length := by rw [e2]
      _ = raw.length := by rw [e1]
  · intro c hc
    rw [hout] at hc
    obtain ⟨t, ht6, rfl⟩ := List.mem_map.mp hc
    have htty : t ∈ ty :=
      List.mem_of_mem_filter (List.mem_of_mem_filter (List.mem_of_mem_filter ht6))
    obtain ⟨r, hr3, hcr⟩ := forall₂_mem_right hf2 htty
    have hraw : r ∈ raw :=
      dropDuplicates_subset raw r
        (List.mem_of_mem_filter (List.mem_of_mem_filter hr3))
    exact ⟨r, hraw, t, hcr, rfl⟩

/-- Witness for `C6_thm` at the four-row scenario batch. -/
theorem C6_witness :
    transform [rawA, rawA, rawC, rawD] = some [cleanA] ∧
      ([cleanA] : List CleanRecord).length ≤
        ([rawA, rawA, rawC, rawD] : List RawRecord).length :=
  ⟨by decide, (C6_thm [rawA, rawA, rawC, rawD] [cleanA] (by decide)).1⟩

/-- C1 (amended): every record produced by a successful `transform` has
positive quantity within the outlier ceiling, positive unit price, an
invoice id that does not start with the cancellation marker, and is the
unrepaired cleaned image of an input row whose customer id and
description cells were present (the customer id an integer by the cast);
the description, however, is only guaranteed present, not non-empty — a
whitespace-only description survives the null filter and is normalized to
the empty string. -/
theorem C1_thm (raw : List RawRecord) (out : List CleanRecord)
    (h : transform raw = some out) :
    ∀ c ∈ out,
      0 < c.quantity ∧ c.quantity ≤ 10000 ∧ 0 < c.unitPrice ∧
      startsWithMarker c.invoiceNo = false ∧
      ∃ r ∈ raw, r.customerID.isSome = true ∧ r.description.isSome = true ∧
        ∃ t, convertRow r = some t ∧ c = enrich t := by
  obtain ⟨ty, hconv, hout⟩ := transform_spec raw out h
  have hf2 := convertAll_forall₂ _ _ hconv
  intro c hc
  rw [hout] at hc
  obtain ⟨t, ht6, rfl⟩ := List.mem_map.mp hc
  have hceil : withinOutlierCeiling t = true := (List.mem_filter.mp ht6).2
  have ht5 := (List.mem_filter.mp ht6).1
  have hpos : positiveQtyPrice t = true := (List.mem_filter.mp ht5).2
  have ht4 := (List.mem_filter.mp ht5).1
  have hnc : notCancelled t = true := (List.mem_filter.mp ht4).2
  have htty := (List.mem_filter.mp ht4).1
  obtain ⟨r, hr3, hcr⟩ := forall₂_mem_right hf2 htty
  have hpresD : r.description.isSome = true := (List.mem_filter.mp hr3).2
  have hr2 := (List.mem_filter.mp hr3).1
  have hpresC : r.customerID.isSome = true := (List.mem_filter.mp hr2).2
  have hraw : r ∈ raw := dropDuplicates_subset raw r (List.mem_of_mem_filter hr2)
  simp only [positiveQtyPrice, Bool.and_eq_true, decide_eq_true_eq] at hpos
  simp only [withinOutlierCeiling, decide_eq_true_eq] at hceil
  simp only [notCancelled, Bool.not_eq_true'] at hnc
  refine ⟨?_, ?_, ?_, ?_, r, hraw, hpresC, hpresD, t, hcr, rfl⟩
  · simpa [enrich] using hpos.1
  · simpa [enrich] using hceil
  · simpa [enrich] using hpos.2
  · simpa [enrich] using hnc

/-- Witness for `C1_thm` at the four-row scenario batch. -/
theorem C1_witness :
    0 < cleanA.quantity ∧ cleanA.quantity ≤ 10000 ∧ 0 < cleanA.unitPrice ∧
      startsWithMarker cleanA.invoiceNo = false ∧
      ∃ r ∈ [rawA, rawA, rawC, rawD], r.customerID.isSome = true ∧
        r.description.isSome = true ∧
        ∃ t, convertRow r = some t ∧ cleanA = enrich t :=
  C1_thm [rawA, rawA, rawC, rawD] [cleanA] (by decide) cleanA (by decide)

/-- C1 (counterexample to the claim as stated): the claim requires every
clean record's description to be non-empty, but a row whose description
cell holds only whitespace is kept by the null filter and `transform`
normalizes its description to the empty string. -/
theorem C1_cex :
    (transform [rawWS]).map (List.map CleanRecord.description) = some [""] := by
  decide

/-- C2 (confirmed): on the four-row scenario batch — (a) a normal row with
quantity 3, unit price 2.50, customer 101, (b) an exact duplicate of (a),
(c) a row with an empty customer id, (d) a row with invoice id `C1001` —
the pipeline retains exactly one clean record (row a), loads one date,
one customer and one product dimension row, and commits exactly one fact
whose total amount is 7.50. -/
theorem C2_thm :
    transform [rawA, rawA, rawC, rawD] = some [cleanA] ∧
    (load_dimensions emptyDb [cleanA]).datesLoaded = 1 ∧
    (load_dimensions emptyDb [cleanA]).customersLoaded = 1 ∧
    (load_dimensions emptyDb [cleanA]).productsLoaded = 1 ∧
    (load_dimensions emptyDb [cleanA]).db.dimDates.length = 1 ∧
    (load_dimensions emptyDb [cleanA]).db.dimCustomers.length = 1 ∧
    (load_dimensions emptyDb [cleanA]).db.dimProducts.length = 1 ∧
    (load_facts (load_dimensions emptyDb [cleanA]).db [cleanA] none).1 = true ∧
    (load_facts (load_dimensions emptyDb [cleanA]).db [cleanA] none).2.2 = 1 ∧
    ((load_facts (load_dimensions emptyDb [cleanA]).db [cleanA] none).2.1.facts.map
      (fun f => (f.quantity : Rat) * f.unit_price)) = [15/2] := by
  decide

/-! Lemmas about the date-dimension upsert. -/

theorem upsertDate_of_present (db : Database) (d : DateOnly)
    (h : db.dimDates.any (fun r => r.full_date == d) = true) :
    upsertDate db d = db := by
  simp [upsertDate, h]

theorem upsertDate_of_absent (db : Database) (d : DateOnly)
    (h : db.dimDates.any (fun r => r.full_date == d) = false) :
    (upsertDate db d).dimDates = db.dimDates ++ [mkDateRow db.nextDateId d] := by
  simp [upsertDate, h]

theorem countDate_upsert (d : DateOnly) (db : Database)
    (h : countDate db d ≤ 1) : countDate (upsertDate db d) d = 1 := by
  cases hp : db.dimDates.any (fun r => r.full_date == d) with
  | true =>
    rw [upsertDate_of_present db d hp]
    have hpos : 0 < countDate db d := by
      rw [List.any_eq_true] at hp
      obtain ⟨x, hx, hxd⟩ := hp
      exact List.countP_pos_iff.mpr ⟨x, hx, hxd⟩
    omega
  | false =>
    have hz : countDate db d = 0 := by
      rw [List.any_eq_false] at hp
      exact List.countP_eq_zero.mpr hp
    unfold countDate at hz ⊢
    rw [upsertDate_of_absent db d hp, List.countP_append, hz]
    simp [mkDateRow]

/-- C7 (confirmed): the date-dimension upsert is insert-if-absent — when a
row for the calendar date exists the warehouse is unchanged (never
updated), otherwise exactly one new row is appended — so, starting from a
warehouse holding at most one row for that date, upserting the same date
any number of times leaves exactly one date-dimension row for it. -/
theorem C7_thm (db : Database) (d : DateOnly) (n : Nat) (hn : 1 ≤ n)
    (hinv : countDate db d ≤ 1) :
    ((upsertDate db d).dimDates = db.dimDates ∨
      (upsertDate db d).dimDates = db.dimDates ++ [mkDateRow db.nextDateId d]) ∧
    (db.dimDates.any (fun r => r.full_date == d) = true → upsertDate db d = db) ∧
    countDate ((fun s => upsertDate s d)^[n] db) d = 1 := by
  refine ⟨?_, fun hp => upsertDate_of_present db d hp, ?_⟩
  · cases hp : db.dimDates.any (fun r => r.full_date == d) with
    | true => exact Or.inl (by rw [upsertDate_of_present db d hp])
    | false => exact Or.inr (upsertDate_of_absent db d hp)
  · have key : ∀ m (db' : Database), countDate db' d ≤ 1 →
        countDate ((fun s => upsertDate s d)^[m + 1] db') d = 1 := by
      intro m
      induction m with
      | zero => intro db' h'; simpa using countDate_upsert d db' h'
      | succ k ih =>
        intro db' h'
        rw [Function.iterate_succ_apply]
        exact ih (upsertDate db' d) (Nat.le_of_eq (countDate_upsert d db' h'))
    obtain ⟨m, rfl⟩ : ∃ m, n = m + 1 := ⟨n - 1, by omega⟩
    exact key m db hinv

/-- Witness for `C7_thm`: three consecutive upserts of the same date into
the empty warehouse leave exactly one row for it. -/
theorem C7_witness :
    ((upsertDate emptyDb ⟨2011, 1, 4⟩).dimDates = emptyDb.dimDates ∨
      (upsertDate emptyDb ⟨2011, 1, 4⟩).dimDates =
        emptyDb.dimDates ++ [mkDateRow emptyDb.nextDateId ⟨2011, 1, 4⟩]) ∧
    (emptyDb.dimDates.any (fun r => r.full_date == (⟨2011, 1, 4⟩ : DateOnly)) = true →
      upsertDate emptyDb ⟨2011, 1, 4⟩ = emptyDb) ∧
    countDate ((fun s => upsertDate s ⟨2011, 1, 4⟩)^[3] emptyDb) ⟨2011, 1, 4⟩ = 1 :=
  C7_thm emptyDb ⟨2011, 1, 4⟩ 3 (by decide) (by decide)

/-! Lemmas about the product-dimension upsert. -/

theorem find?_update_self (l : List DimProductRow) (c desc : String) (price : Rat)
    (h : l.any (fun r => r.stock_code == c) = true) :
    ((l.map (fun r =>
        if r.stock_code == c then { r with description := desc, unit_price := price }
        else r)).find? (fun r => r.stock_code == c)).map
      (fun r => (r.description, r.unit_price)) = some (desc, price) := by
  induction l with
  | nil => simp at h
  | cons a l ih =>
    by_cases ha : a.stock_code = c
    · have hb : (a.stock_code == c) = true := by simpa using ha
      rw [List.map_cons, if_pos hb, List.find?_cons_of_pos _ (by simpa using ha)]
      rfl
    · have hb : (a.stock_code == c) = false := by simpa using ha
      rw [List.map_cons, if_neg (by simp [hb]), List.find?_cons_of_neg _ (by simp [hb])]
      apply ih
      simpa [List.any_cons, hb] using h

theorem find?_update_other (l : List DimProductRow) (c c' desc : String) (price : Rat)
    (hne : c' ≠ c) :
    (l.map (fun r =>
        if r.stock_code == c then { r with description := desc, unit_price := price }
        else r)).find? (fun r => r.stock_code == c') =
      l.find? (fun r => r.stock_code == c') := by
  induction l with
  | nil => rfl
  | cons a l ih =>
    by_cases ha' : a.stock_code = c'
    · have hb : (a.stock_code == c) = false := by simp [ha', hne]
      rw [List.map_cons, if_neg (by simp [hb]),
        List.find?_cons_of_pos _ (by simpa using ha'),
        List.find?_cons_of_pos _ (by simpa using ha')]
    · by_cases hac : a.stock_code = c
      · have hb : (a.stock_code == c) = true := by simpa using hac
        rw [List.map_cons, if_pos hb]
        rw [List.find?_cons_of_neg _ (by simpa using ha'),
          List.find?_cons_of_neg _ (by simpa using ha')]
        exact ih
      · have hb : (a.stock_code == c) = false := by simpa using hac
        rw [List.map_cons, if_neg (by simp [hb])]
        rw [List.find?_cons_of_neg _ (by simpa using ha'),
          List.find?_cons_of_neg _ (by simpa using ha')]
        exact ih

theorem findProduct_upsert_self (db : Database) (c desc : String) (price : Rat) :
    (findProduct (upsertProduct db c desc price) c).map
      (fun r => (r.description, r.unit_price)) = some (desc, price) := by
  unfold findProduct upsertProduct
  by_cases hp : db.dimProducts.any (fun r => r.stock_code == c) = true
  · rw [if_pos hp]
    exact find?_update_self db.dimProducts c desc price hp
  · rw [if_neg hp]
    rw [List.find?_append]
    have hnone : db.dimProducts.find? (fun r => r.stock_code == c) = none := by
      rw [List.find?_eq_none]
      intro x hx
      rw [Bool.not_eq_true] at hp
      rw [List.any_eq_false] at hp
      exact hp x hx
    rw [hnone]
    simp [List.find?]

theorem findProduct_upsert_other (db : Database) (c c' desc : String) (price : Rat)
    (hne : c' ≠ c) :
    findProduct (upsertProduct db c desc price) c' = findProduct db c' := by
  unfold findProduct upsertProduct
  by_cases hp : db.dimProducts.any (fun r => r.stock_code == c) = true
  · rw [if_pos hp]
    exact find?_update_other db.dimProducts c c' desc price hne
  · rw [if_neg hp]
    rw [List.find?_append]
    have hlast : ([(⟨db.nextProductId, c, desc, price⟩ : DimProductRow)].find?
        (fun r => r.stock_code == c')) = none := by
      have hcc : (c == c') = false := by
        simp only [beq_eq_false_iff_ne, ne_eq]
        exact fun h => hne h.symm
      simp [List.find?, hcc]
    rw [hlast, Option.or_none]

theorem foldl_upsertProduct_find (F : String → String) (G : String → Rat) :
    ∀ (ks : List String), ks.Nodup → ∀ (db : Database) (c : String),
      (c ∈ ks →
        (findProduct (ks.foldl (fun acc k => upsertProduct acc k (F k) (G k)) db) c).map
          (fun r => (r.description, r.unit_price)) = some (F c, G c)) ∧
      (c ∉ ks →
        findProduct (ks.foldl (fun acc k => upsertProduct acc k (F k) (G k)) db) c =
          findProduct db c) := by
  intro ks
  induction ks with
  | nil => intro _ db c; exact ⟨fun h => absurd h (List.not_mem_nil c), fun _ => rfl⟩
  | cons k ks ih =>
    intro hnd db c
    rw [List.nodup_cons] at hnd
    constructor
    · intro hc
      rcases List.mem_cons.mp hc with rfl | hc'
      · rw [List.foldl_cons]
        rw [(ih hnd.2 (upsertProduct db c (F c) (G c)) c).2 hnd.1]
        exact findProduct_upsert_self db c (F c) (G c)
      · rw [List.foldl_cons]
        exact (ih hnd.2 (upsertProduct db k (F k) (G k)) c).1 hc'
    · intro hc
      simp only [List.mem_cons, not_or] at hc
      rw [List.foldl_cons]
      rw [(ih hnd.2 (upsertProduct db k (F k) (G k)) c).2 hc.2]
      exact findProduct_upsert_other db k c (F k) (G k) hc.1

theorem upsertDate_dimProducts (db : Database) (d : DateOnly) :
    (upsertDate db d).dimProducts = db.dimProducts := by
  unfold upsertDate; split <;> rfl

theorem upsertCustomer_dimProducts (db : Database) (cid : Int) (a : CustomerAgg) :
    (upsertCustomer db cid a).dimProducts = db.dimProducts := by
  unfold upsertCustomer; split <;> rfl

theorem loadDates_dimProducts (ds : List DateOnly) :
    ∀ db : Database, (loadDates db ds).dimProducts = db.dimProducts := by
  induction ds with
  | nil => intro db; rfl
  | cons d ds ih =>
    intro db
    unfold loadDates at ih ⊢
    rw [List.foldl_cons, ih (upsertDate db d), upsertDate_dimProducts]

theorem loadCustomers_dimProducts (db : Database) (batch : List CleanRecord) :
    (loadCustomers db batch).dimProducts = db.dimProducts := by
  unfold loadCustomers
  generalize distinctCustomers batch = ks
  induction ks generalizing db with
  | nil => rfl
  | cons k ks ih =>
    rw [List.foldl_cons, ih (upsertCustomer db k (customerAgg batch k)),
      upsertCustomer_dimProducts]

theorem load_dimensions_dimProducts (db : Database) (batch : List CleanRecord) :
    (load_dimensions db batch).db.dimProducts =
      (loadProducts (loadCustomers (loadDates db (distinctDates batch)) batch)
        batch).dimProducts := rfl

/-- C8 (amended): after `load_dimensions`, the product-dimension row for
each stock code of the batch holds the FIRST-observed description among
the batch's clean records for that code (the source aggregates
`Description` with `'first'`, not the latest) and the mean unit price
across those records, both overwritten on conflict; rows for codes not in
the batch are untouched. -/
theorem C8_thm (db : Database) (batch : List CleanRecord) (code : String) :
    (code ∈ distinctCodes batch →
      (findProduct (load_dimensions db batch).db code).map
        (fun r => (r.description, r.unit_price)) =
        some (firstDesc batch code, meanPrice batch code)) ∧
    (code ∉ distinctCodes batch →
      findProduct (load_dimensions db batch).db code = findProduct db code) := by
  have hnd : (distinctCodes batch).Nodup := nodup_dropDuplicates _
  have hfold := foldl_upsertProduct_find (firstDesc batch) (meanPrice batch)
    (distinctCodes batch) hnd
    (loadCustomers (loadDates db (distinctDates batch)) batch) code
  refine ⟨hfold.1, ?_⟩
  intro hc
  have h2 := hfold.2 hc
  have hredef : (load_dimensions db batch).db =
      loadProducts (loadCustomers (loadDates db (distinctDates batch)) batch) batch := rfl
  unfold findProduct at h2 ⊢
  rw [hredef]
  unfold loadProducts
  rw [h2, loadCustomers_dimProducts, loadDates_dimProducts]

/-- Witness for `C8_thm`: the two-record `P9` batch yields the first
description `A` and the mean price 3/2. -/
theorem C8_witness :
    (findProduct (load_dimensions emptyDb [cleanP9A, cleanP9B]).db "P9").map
      (fun r => (r.description, r.unit_price)) =
      some (firstDesc [cleanP9A, cleanP9B] "P9", meanPrice [cleanP9A, cleanP9B] "P9") :=
  (C8_thm emptyDb [cleanP9A, cleanP9B] "P9").1 (by decide)

/-- C8 (counterexample to the claim as stated): with two clean records for
stock code `P9` whose descriptions are `A` then `B`, the loaded product
row keeps `A` (first observed), while the latest observed description of
the batch is `B`. -/
theorem C8_cex :
    ((load_dimensions emptyDb [cleanP9A, cleanP9B]).db.dimProducts.map
      (fun r => r.description)) = ["A"] ∧
    ((([cleanP9A, cleanP9B].filter (fun r => r.stockCode == "P9")).map
      (fun r => r.description)).getLast?) = some "B" := by
  decide

/-! Lemmas for the re-run behaviour of the dimension load. -/

theorem upsertCustomer_dimDates (db : Database) (cid : Int) (a : CustomerAgg) :
    (upsertCustomer db cid a).dimDates = db.dimDates := by
  unfold upsertCustomer; split <;> rfl

theorem upsertProduct_dimDates (db : Database) (code desc : String) (price : Rat) :
    (upsertProduct db code desc price).dimDates = db.dimDates := by
  unfold upsertProduct; split <;> rfl

theorem loadCustomers_dimDates (db : Database) (batch : List CleanRecord) :
    (loadCustomers db batch).dimDates = db.dimDates := by
  unfold loadCustomers
  generalize distinctCustomers batch = ks
  induction ks generalizing db with
  | nil => rfl
  | cons k ks ih =>
    rw [List.foldl_cons, ih (upsertCustomer db k (customerAgg batch k)),
      upsertCustomer_dimDates]

theorem loadProducts_dimDates (db : Database) (batch : List CleanRecord) :
    (loadProducts db batch).dimDates = db.dimDates := by
  unfold loadProducts
  generalize distinctCodes batch = ks
  induction ks generalizing db with
  | nil => rfl
  | cons k ks ih =>
    rw [List.foldl_cons, ih (upsertProduct db k (firstDesc batch k) (meanPrice batch k)),
      upsertProduct_dimDates]

theorem upsertDate_present_self (db : Database) (d : DateOnly) :
    (upsertDate db d).dimDates.any (fun r => r.full_date == d) = true := by
  by_cases hp : db.dimDates.any (fun r => r.full_date == d) = true
  · rw [upsertDate_of_present db d hp]; exact hp
  · rw [upsertDate_of_absent db d (Bool.not_eq_true _ ▸ hp)]
    rw [List.any_append]
    simp [mkDateRow]

theorem upsertDate_present_mono (db : Database) (d d' : DateOnly)
    (h : db.dimDates.any (fun r => r.full_date == d') = true) :
    (upsertDate db d).dimDates.any (fun r => r.full_date == d') = true := by
  by_cases hp : db.dimDates.any (fun r => r.full_date == d) = true
  · rw [upsertDate_of_present db d hp]; exact h
  · rw [upsertDate_of_absent db d (Bool.not_eq_true _ ▸ hp)]
    rw [List.any_append, h]
    rfl

theorem loadDates_present_mono (ds : List DateOnly) :
    ∀ (db : Database) (d' : DateOnly),
      db.dimDates.any (fun r => r.full_date == d') = true →
      (loadDates db ds).dimDates.any (fun r => r.full_date == d') = true := by
  induction ds with
  | nil => intro db d' h; exact h
  | cons d ds ih =>
    intro db d' h
    unfold loadDates at ih ⊢
    rw [List.foldl_cons]
    exact ih (upsertDate db d) d' (upsertDate_present_mono db d d' h)

theorem loadDates_present (ds : List DateOnly) :
    ∀ (db : Database) (k : DateOnly), k ∈ ds →
      (loadDates db ds).dimDates.any (fun r => r.full_date == k) = true := by
  induction ds with
  | nil => intro db k hk; cases hk
  | cons d ds ih =>
    intro db k hk
    unfold loadDates at ih ⊢
    rw [List.foldl_cons]
    rcases List.mem_cons.mp hk with rfl | hk'
    · exact loadDates_present_mono ds (upsertDate db k) k (upsertDate_present_self db k)
    · exact ih (upsertDate db d) k hk'

theorem loadDates_id (ds : List DateOnly) :
    ∀ db : Database,
      (∀ k ∈ ds, db.dimDates.any (fun r => r.full_date == k) = true) →
      loadDates db ds = db := by
  induction ds with
  | nil => intro db _; rfl
  | cons d ds ih =>
    intro db h
    unfold loadDates at ih ⊢
    rw [List.foldl_cons, upsertDate_of_present db d (h d (List.mem_cons_self d ds))]
    exact ih db (fun k hk => h k (List.mem_cons_of_mem d hk))

/-- C10 (confirmed): the per-type `loaded` statistics of `load_dimensions`
equal the number of distinct keys in the current clean batch — dates,
customer ids, stock codes — independent of what storage already holds,
not the number of rows newly inserted; re-running the same batch against
the warehouse it produced reports the same `dates_loaded` even though the
insert-if-absent date upsert inserts zero new rows. -/
theorem C10_thm (db : Database) (batch : List CleanRecord) :
    (load_dimensions db batch).datesLoaded = (distinctDates batch).length ∧
    (load_dimensions db batch).customersLoaded = (distinctCustomers batch).length ∧
    (load_dimensions db batch).productsLoaded = (distinctCodes batch).length ∧
    (load_dimensions (load_dimensions db batch).db batch).datesLoaded =
      (load_dimensions db batch).datesLoaded ∧
    (load_dimensions (load_dimensions db batch).db batch).db.dimDates =
      (load_dimensions db batch).db.dimDates := by
  refine ⟨rfl, rfl, rfl, rfl, ?_⟩
  have hdb1 : (load_dimensions db batch).db =
      loadProducts (loadCustomers (loadDates db (distinctDates batch)) batch) batch := rfl
  have hdim1 : (load_dimensions db batch).db.dimDates =
      (loadDates db (distinctDates batch)).dimDates := by
    rw [hdb1, loadProducts_dimDates, loadCustomers_dimDates]
  have hpres : ∀ k ∈ distinctDates batch,
      ((load_dimensions db batch).db.dimDates.any (fun r => r.full_date == k)) = true := by
    intro k hk
    rw [hdim1]
    exact loadDates_present (distinctDates batch) db k hk
  have hdb2 : (load_dimensions (load_dimensions db batch).db batch).db =
      loadProducts (loadCustomers
        (loadDates (load_dimensions db batch).db (distinctDates batch)) batch) batch := rfl
  rw [hdb2, loadProducts_dimDates, loadCustomers_dimDates,
    loadDates_id (distinctDates batch) (load_dimensions db batch).db hpres]

/-! Lemmas about the batched fact load. -/

theorem chunkPagesFuel_flatten :
    ∀ (fuel : Nat) (l : List FactRow), l.length ≤ fuel →
      (chunkPagesFuel fuel l).flatten = l := by
  intro fuel
  induction fuel with
  | zero =>
    intro l hl
    cases l with
    | nil => rfl
    | cons x xs => simp at hl
  | succ f ih =>
    intro l hl
    cases l with
    | nil => rfl
    | cons x xs =>
      simp only [chunkPagesFuel, List.flatten_cons]
      rw [ih ((x :: xs).drop 1000) (by simp only [List.length_drop]; omega)]
      exact List.take_append_drop 1000 (x :: xs)

theorem chunkPages_flatten (l : List FactRow) : (chunkPages l).flatten = l :=
  chunkPagesFuel_flatten l.length l (Nat.le_refl _)

theorem chunkPagesFuel_congr :
    ∀ (f1 : Nat), ∀ (f2 : Nat) (l : List FactRow), l.length ≤ f1 → l.length ≤ f2 →
      chunkPagesFuel f1 l = chunkPagesFuel f2 l := by
  intro f1
  induction f1 with
  | zero =>
    intro f2 l h1 _
    cases l with
    | nil => cases f2 <;> rfl
    | cons x xs => simp at h1
  | succ g1 ih =>
    intro f2 l h1 h2
    cases l with
    | nil => cases f2 <;> rfl
    | cons x xs =>
      cases f2 with
      | zero => simp at h2
      | succ g2 =>
        simp only [chunkPagesFuel]
        congr 1
        exact ih g2 ((x :: xs).drop 1000)
          (by simp only [List.length_drop]; simp at h1 ⊢; omega)
          (by simp only [List.length_drop]; simp at h2 ⊢; omega)

theorem chunkPages_cons_eq (l : List FactRow) (h : l ≠ []) :
    chunkPages l = l.take 1000 :: chunkPages (l.drop 1000) := by
  cases l with
  | nil => exact absurd rfl h
  | cons x xs =>
    unfold chunkPages
    simp only [List.length_cons, chunkPagesFuel]
    congr 1
    exact chunkPagesFuel_congr xs.length ((x :: xs).drop 1000).length ((x :: xs).drop 1000)
      (by simp only [List.length_drop, List.length_cons]; omega) (Nat.le_refl _)

theorem sendPages_none : ∀ (i : Nat) (pages : List (List FactRow)),
    sendPages i pages none = some pages.flatten := by
  intro i pages
  induction pages generalizing i with
  | nil => rfl
  | cons p ps ih =>
    simp only [sendPages]
    rw [show ((none : Option Nat) == some i) = false from rfl, ih (i + 1)]
    simp

theorem sendPages_fail : ∀ (pages : List (List FactRow)) (i k : Nat),
    i ≤ k → k < i + pages.length → sendPages i pages (some k) = none := by
  intro pages
  induction pages with
  | nil => intro i k h1 h2; simp at h2; omega
  | cons p ps ih =>
    intro i k h1 h2
    by_cases hik : k = i
    · subst hik
      simp [sendPages]
    · simp only [sendPages]
      have hne : ((some k : Option Nat) == some i) = false := by
        simpa using hik
      rw [hne]
      simp only [Bool.false_eq_true, if_false]
      rw [ih (i + 1) k (by omega) (by simp at h2 ⊢; omega)]

theorem resolveOne_isSome (db : Database) (r : CleanRecord) :
    (resolveOne db r).isSome = allLookupsOk db r := by
  unfold resolveOne allLookupsOk
  cases h1 : lookupCustomer db r.customerID <;>
    cases h2 : lookupProduct db r.stockCode <;>
      cases h3 : lookupDate db r.invoiceDate.dateOnly <;> simp

theorem resolveFacts_length (db : Database) (clean : List CleanRecord) :
    (resolveFacts db clean).length = clean.countP (fun r => allLookupsOk db r) := by
  unfold resolveFacts
  induction clean with
  | nil => rfl
  | cons r rs ih =>
    rw [List.filterMap_cons, List.countP_cons]
    cases hr : resolveOne db r with
    | none =>
      have : allLookupsOk db r = false := by
        rw [← resolveOne_isSome, hr]; rfl
      rw [this]; simpa using ih
    | some f =>
      have : allLookupsOk db r = true := by
        rw [← resolveOne_isSome, hr]; rfl
      rw [this]; simp [ih]

theorem resolveFacts_filter (db : Database) (clean : List CleanRecord) :
    resolveFacts db clean =
      resolveFacts db (clean.filter (fun r => allLookupsOk db r)) := by
  unfold resolveFacts
  induction clean with
  | nil => rfl
  | cons r rs ih =>
    rw [List.filterMap_cons]
    cases hr : resolveOne db r with
    | none =>
      have hf : allLookupsOk db r = false := by
        rw [← resolveOne_isSome, hr]; rfl
      rw [List.filter_cons, hf]
      simpa using ih
    | some f =>
      have ht : allLookupsOk db r = true := by
        rw [← resolveOne_isSome, hr]; rfl
      rw [List.filter_cons, ht]
      simp only [if_true, List.filterMap_cons, hr]
      rw [ih]

theorem load_facts_none (db : Database) (clean : List CleanRecord) :
    load_facts db clean none =
      (true, { db with facts := db.facts ++ resolveFacts db clean },
        (resolveFacts db clean).length) := by
  unfold load_facts
  rw [sendPages_none 0 (chunkPages (resolveFacts db clean)), chunkPages_flatten]

/-- C4 (confirmed): with reachable storage, `load_facts` succeeds whether
or not every record resolves; the committed facts are exactly the
pre-existing ones plus the resolved tuples; records with any failing
dimension lookup contribute nothing (resolution ignores them entirely);
and the exclusions are counted in the run statistics —
`transactions_loaded` equals the number of fully-resolved records, so
together with the batch size the number of silently excluded records is
exactly determined. -/
theorem C4_thm (db : Database) (clean : List CleanRecord) :
    (load_facts db clean none).1 = true ∧
    (load_facts db clean none).2.1.facts = db.facts ++ resolveFacts db clean ∧
    resolveFacts db clean =
      resolveFacts db (clean.filter (fun r => allLookupsOk db r)) ∧
    (load_facts db clean none).2.2 = clean.countP (fun r => allLookupsOk db r) ∧
    (load_facts db clean none).2.2 +
      clean.countP (fun r => !(allLookupsOk db r)) = clean.length := by
  rw [load_facts_none db clean]
  refine ⟨rfl, rfl, resolveFacts_filter db clean, resolveFacts_length db clean, ?_⟩
  have hlen := List.length_eq_countP_add_countP (fun r => allLookupsOk db r) clean
  have hfun : (fun r => decide ¬(allLookupsOk db r = true)) =
      (fun r => !(allLookupsOk db r)) := by
    funext a
    cases h : allLookupsOk db a <;> simp [h]
  rw [hfun] at hlen
  have hres := resolveFacts_length db clean
  have hproj : ((true, { db with facts := db.facts ++ resolveFacts db clean },
      (resolveFacts db clean).length) : Bool × Database × Nat).2.2 =
      (resolveFacts db clean).length := rfl
  rw [hproj]
  omega

theorem filterMap_replicate_some {α β : Type} (f : α → Option β) (a : α) (b : β)
    (h : f a = some b) : ∀ n, (List.replicate n a).filterMap f = List.replicate n b := by
  intro n
  induction n with
  | zero => rfl
  | succ k ih => rw [List.replicate_succ, List.filterMap_cons, h, ih, List.replicate_succ]

theorem resolveFacts_batch1001 :
    resolveFacts dbAfterDims batch1001 = List.replicate 1001 factA := by
  unfold resolveFacts batch1001
  exact filterMap_replicate_some (resolveOne dbAfterDims) cleanA factA (by decide) 1001

theorem chunkPages_batch1001 :
    chunkPages (resolveFacts dbAfterDims batch1001) =
      [List.replicate 1000 factA, [factA]] := by
  rw [resolveFacts_batch1001]
  rw [chunkPages_cons_eq _
    (by apply List.ne_nil_of_length_pos; rw [List.length_replicate]; omega)]
  rw [List.take_replicate, List.drop_replicate]
  norm_num
  rw [chunkPages_cons_eq _ (by simp)]
  decide

/-- C3 (amended): when the fact-loading stage fails while any page of the
batched insert is being sent, the single enclosing transaction — there is
exactly one commit, after all pages — is rolled back in full: the call
returns failure and the warehouse is exactly its pre-call state, so no
batch of the call survives, not even pages sent before the failing
one. -/
theorem C3_thm (db : Database) (clean : List CleanRecord) (k : Nat)
    (hk : k < (chunkPages (resolveFacts db clean)).length) :
    load_facts db clean (some k) = (false, db, 0) := by
  unfold load_facts
  rw [sendPages_fail (chunkPages (resolveFacts db clean)) 0 k (Nat.zero_le k)
    (by omega)]

/-- Witness for `C3_thm`: the 1001-record batch has two pages, and a
failure while the second page is in flight leaves the warehouse exactly
as before the call. -/
theorem C3_witness :
    1 < (chunkPages (resolveFacts dbAfterDims batch1001)).length ∧
    load_facts dbAfterDims batch1001 (some 1) = (false, dbAfterDims, 0) :=
  ⟨by rw [chunkPages_batch1001]; decide,
   C3_thm dbAfterDims batch1001 1 (by rw [chunkPages_batch1001]; decide)⟩

/-- C3 (counterexample to the claim as stated): on a 1001-record batch the
insert is sent as a full page of 1000 rows followed by a page of 1; a
failure while the second page is in flight rolls back everything — the
warehouse retains zero facts — although the claim says the 1000 rows of
the earlier completed batch remain in storage. -/
theorem C3_cex :
    (load_facts dbAfterDims batch1001 (some 1)).1 = false ∧
    (load_facts dbAfterDims batch1001 (some 1)).2.1.facts = [] ∧
    chunkPages (resolveFacts dbAfterDims batch1001) =
      [List.replicate 1000 factA, [factA]] ∧
    (List.replicate 1000 factA).length = 1000 := by
  have hfail : load_facts dbAfterDims batch1001 (some 1) = (false, dbAfterDims, 0) := by
    unfold load_facts
    rw [sendPages_fail (chunkPages (resolveFacts dbAfterDims batch1001)) 0 1
      (by omega) (by rw [chunkPages_batch1001]; decide)]
  refine ⟨by rw [hfail], ?_, chunkPages_batch1001, by rw [List.length_replicate]⟩
  rw [hfail]
  decide

/-- C5 (amended): for the first five stages — Connect, Extract, Transform,
LoadDimensions, LoadFacts — a failure stops the run, returns failure and
records the stage's error in the statistics, and no later stage runs.  A
RefreshAggregates failure also stops the run and returns failure, but its
`except` branch records NO error in the statistics.  A Validate failure
never fails the run: when all six earlier stages succeed the run returns
success whatever the validation outcome. -/
theorem C5_thm (o : StageOutcomes) :
    (o.connectOk = false →
      run o = ⟨false, ["Connection error"], [Stage.connect]⟩) ∧
    (o.connectOk = true → o.extractOk = false →
      run o = ⟨false, ["Extraction error"], [Stage.connect, Stage.extractStage]⟩) ∧
    (o.connectOk = true → o.extractOk = true → o.transformOk = false →
      run o = ⟨false, ["Transformation error"],
        [Stage.connect, Stage.extractStage, Stage.transformStage]⟩) ∧
    (o.connectOk = true → o.extractOk = true → o.transformOk = true →
      o.loadDimsOk = false →
      run o = ⟨false, ["Dimension load error"],
        [Stage.connect, Stage.extractStage, Stage.transformStage, Stage.loadDims]⟩) ∧
    (o.connectOk = true → o.extractOk = true → o.transformOk = true →
      o.loadDimsOk = true → o.loadFactsOk = false →
      run o = ⟨false, ["Fact load error"],
        [Stage.connect, Stage.extractStage, Stage.transformStage, Stage.loadDims,
         Stage.loadFacts]⟩) ∧
    (o.connectOk = true → o.extractOk = true → o.transformOk = true →
      o.loadDimsOk = true → o.loadFactsOk = true → o.refreshOk = false →
      run o = ⟨false, [],
        [Stage.connect, Stage.extractStage, Stage.transformStage, Stage.loadDims,
         Stage.loadFacts, Stage.refresh]⟩) ∧
    (o.connectOk = true → o.extractOk = true → o.transformOk = true →
      o.loadDimsOk = true → o.loadFactsOk = true → o.refreshOk = true →
      run o = ⟨true, [],
        [Stage.connect, Stage.extractStage, Stage.transformStage, Stage.loadDims,
         Stage.loadFacts, Stage.refresh, Stage.validateStage]⟩) := by
  rcases o with ⟨c, e, t, ld, lf, rf, v⟩
  cases c <;> cases e <;> cases t <;> cases ld <;> cases lf <;> cases rf <;> cases v <;>
    simp [run]

/-- Witness for `C5_thm`: a Transform failure stops the run with the
transformation error recorded and no later stage entered. -/
theorem C5_witness :
    run ⟨true, true, false, true, true, true, true⟩ =
      ⟨false, ["Transformation error"],
        [Stage.connect, Stage.extractStage, Stage.transformStage]⟩ :=
  (C5_thm ⟨true, true, false, true, true, true, true⟩).2.2.1 rfl rfl rfl

/-- C5 (counterexample to the claim as stated): when `refresh_aggregates`
fails, the run result is failure and no later stage runs, but — contrary
to the claim — no error is recorded in the run statistics (its `except`
branch does not append to `stats['errors']`). -/
theorem C5_cex :
    (run ⟨true, true, true, true, true, false, true⟩).success = false ∧
    (run ⟨true, true, true, true, true, false, true⟩).errors = [] ∧
    Stage.validateStage ∉ (run ⟨true, true, true, true, true, false, true⟩).stagesRun := by
  decide

/-- C9 (amended): the validator never causes the run to fail — neither on
data-quality findings nor on unreachable storage: when every stage before
Validate succeeds, the run returns success with an empty error list
whatever the validation outcome, and an unreachable storage makes
`validate` swallow the raised error and return the empty dict rather than
signalling a `ValidationError`. -/
theorem C9_thm (o : StageOutcomes) (db : Database)
    (h1 : o.connectOk = true) (h2 : o.extractOk = true) (h3 : o.transformOk = true)
    (h4 : o.loadDimsOk = true) (h5 : o.loadFactsOk = true) (h6 : o.refreshOk = true) :
    (run o).success = true ∧ (run o).errors = [] ∧ validate false db = none := by
  refine ⟨?_, ?_, by simp [validate]⟩ <;> simp [run, h1, h2, h3, h4, h5, h6]

/-- Witness for `C9_thm`: with the six earlier stages succeeding and the
validation stage failing, the run still succeeds with no recorded
error. -/
theorem C9_witness :
    (run ⟨true, true, true, true, true, true, false⟩).success = true ∧
    (run ⟨true, true, true, true, true, true, false⟩).errors = [] ∧
    validate false emptyDb = none :=
  C9_thm ⟨true, true, true, true, true, true, false⟩ emptyDb rfl rfl rfl rfl rfl rfl

/-- C9 (counterexample to the claim as stated): when storage is
unreachable during validation, `validate` returns the empty dict and the
orchestrated run still reports success with an empty error list — no
`ValidationError` is observable as a run failure or a recorded error. -/
theorem C9_cex :
    validate false dbAfterDims = none ∧
    (run ⟨true, true, true, true, true, true, false⟩).success = true ∧
    (run ⟨true, true, true, true, true, true, false⟩).errors = [] := by
  refine ⟨by simp [validate], by decide, by decide⟩
